import Mathlib

/-!
Verification of the memory layer and dice tool of the ai-game-master backend.

The Python sources (`backend/memory_store.py`, `backend/game_agent.py`,
`backend/tools.py`) are shallowly embedded below: Python dicts become
association lists, fallible calls (encoder / persistence) become
`Except String` values or function parameters, and the random generator of
the dice roller becomes an explicit function parameter.  Strings are
modelled over their ASCII fragment (Python `str.strip`, `str.lower` and
the regex class `\d` are Unicode aware; every input exercised here is
ASCII).
-/

namespace GameMaster

/-- Python `dict` with string keys and scalar (string-rendered) values,
kept in insertion order. -/
abbrev Dict := List (String × String)

/-- Lookup of a key, `d.get(k)` / `k in d`. -/
def dictGet (d : Dict) (k : String) : Option String :=
  (d.find? (fun p => p.1 = k)).map (fun p => p.2)

/-- `d[k] = v`: overwrite the existing binding in place, else append a new
one at the end — exactly what Python `dict.update` does key by key. -/
def dictInsert : Dict → String → String → Dict
  | [], k, v => [(k, v)]
  | p :: t, k, v => if p.1 = k then (k, v) :: t else p :: dictInsert t k v

theorem dictGet_dictInsert_same (d : Dict) (k v : String) :
    dictGet (dictInsert d k v) k = some v := by
  induction d with
  | nil => simp [dictInsert, dictGet, List.find?]
  | cons p t ih =>
    by_cases hp : p.1 = k
    · simp [dictInsert, dictGet, List.find?, hp]
    · simpa [dictInsert, dictGet, List.find?, hp] using ih

theorem dictGet_dictInsert_other (d : Dict) (k v k2 : String) (hk : k2 ≠ k) :
    dictGet (dictInsert d k v) k2 = dictGet d k2 := by
  induction d with
  | nil => simp [dictInsert, dictGet, List.find?, Ne.symm hk]
  | cons p t ih =>
    by_cases hp : p.1 = k
    · simp [dictInsert, dictGet, List.find?, hp, Ne.symm hk, hp ▸ Ne.symm hk]
    · by_cases hp2 : p.1 = k2
      · simp [dictInsert, dictGet, List.find?, hp, hp2, hk]
      · simpa [dictInsert, dictGet, List.find?, hp, hp2] using ih

/-- Truthiness of a Python `Optional[str]`: `None` and `""` are falsy. -/
def truthy : Option String → Bool
  | none => false
  | some s => s != ""

/-! ### Decimal rendering of naturals (Python `str(int)` for non-negative ints) -/

/-- The ten decimal digit characters. -/
def digChar (d : Nat) : Char :=
  if d = 0 then '0' else if d = 1 then '1' else if d = 2 then '2'
  else if d = 3 then '3' else if d = 4 then '4' else if d = 5 then '5'
  else if d = 6 then '6' else if d = 7 then '7' else if d = 8 then '8'
  else if d = 9 then '9' else '*'

/-- Little-endian decimal digits of a natural number. -/
def natDigitsRev (n : Nat) : List Nat :=
  if h : n < 10 then [n]
  else (n % 10) :: natDigitsRev (n / 10)
termination_by n
decreasing_by omega

/-- Value of a little-endian digit list (left inverse of `natDigitsRev`). -/
def digitsValRev : List Nat → Nat
  | [] => 0
  | d :: ds => d + 10 * digitsValRev ds

theorem digitsValRev_natDigitsRev (n : Nat) :
    digitsValRev (natDigitsRev n) = n := by
  induction n using Nat.strong_induction_on with
  | _ n ih =>
    rw [natDigitsRev]
    split
    · simp [digitsValRev]
    · rw [digitsValRev, ih (n / 10) (by omega)]
      omega

theorem natDigitsRev_lt (n : Nat) : ∀ d ∈ natDigitsRev n, d < 10 := by
  induction n using Nat.strong_induction_on with
  | _ n ih =>
    rw [natDigitsRev]
    split
    · intro d hd
      simp only [List.mem_singleton] at hd
      omega
    · intro d hd
      simp only [List.mem_cons] at hd
      rcases hd with hd | hd
      · omega
      · exact ih (n / 10) (by omega) d hd

/-- Decimal string of a natural number, as Python `str` renders it. -/
def natStr (n : Nat) : String :=
  ⟨((natDigitsRev n).map digChar).reverse⟩

theorem digChar_inj_lt : ∀ a : Fin 10, ∀ b : Fin 10,
    digChar a.val = digChar b.val → a = b := by decide

theorem digChar_ne_underscore : ∀ a : Fin 10, digChar a.val ≠ '_' := by decide

theorem map_digChar_inj (l1 l2 : List Nat)
    (h1 : ∀ d ∈ l1, d < 10) (h2 : ∀ d ∈ l2, d < 10)
    (h : l1.map digChar = l2.map digChar) : l1 = l2 := by
  induction l1 generalizing l2 with
  | nil => cases l2 <;> simp_all
  | cons a t ih =>
    cases l2 with
    | nil => simp_all
    | cons b t2 =>
      simp only [List.map_cons, List.cons.injEq] at h
      have ha : a < 10 := h1 a (List.mem_cons_self a t)
      have hb : b < 10 := h2 b (List.mem_cons_self b t2)
      have hab := digChar_inj_lt ⟨a, ha⟩ ⟨b, hb⟩ h.1
      have : a = b := congrArg Fin.val hab
      subst this
      have := ih t2 (fun d hd => h1 d (List.mem_cons_of_mem a hd))
        (fun d hd => h2 d (List.mem_cons_of_mem a hd)) h.2
      simp [this]

theorem natStr_inj (a b : Nat) (h : natStr a = natStr b) : a = b := by
  unfold natStr at h
  have h2 : ((natDigitsRev a).map digChar).reverse
      = ((natDigitsRev b).map digChar).reverse := congrArg String.data h
  have h3 : (natDigitsRev a).map digChar = (natDigitsRev b).map digChar :=
    List.reverse_injective h2
  have h4 := map_digChar_inj _ _ (natDigitsRev_lt a) (natDigitsRev_lt b) h3
  calc a = digitsValRev (natDigitsRev a) := (digitsValRev_natDigitsRev a).symm
    _ = digitsValRev (natDigitsRev b) := by rw [h4]
    _ = b := digitsValRev_natDigitsRev b

theorem natStr_no_underscore (n : Nat) : '_' ∉ (natStr n).data := by
  unfold natStr
  intro hmem
  simp only [List.mem_reverse, List.mem_map] at hmem
  obtain ⟨d, hd, hEq⟩ := hmem
  exact digChar_ne_underscore ⟨d, natDigitsRev_lt n d hd⟩ hEq

/-- In `l ++ '_' :: r` with `r` free of underscores, `r` is the segment
after the last underscore, hence determined by the whole list. -/
theorem append_underscore_inj (l1 : List Char) : ∀ (l2 r1 r2 : List Char),
    '_' ∉ r1 → '_' ∉ r2 → l1 ++ '_' :: r1 = l2 ++ '_' :: r2 → r1 = r2 := by
  induction l1 with
  | nil =>
    intro l2 r1 r2 h1 h2 h
    cases l2 with
    | nil => simpa using h
    | cons c t =>
      simp only [List.nil_append, List.cons_append, List.cons.injEq] at h
      exact absurd (h.2 ▸ List.mem_append_right t (List.mem_cons_self '_' r2)) h1
  | cons c t ih =>
    intro l2 r1 r2 h1 h2 h
    cases l2 with
    | nil =>
      simp only [List.nil_append, List.cons_append, List.cons.injEq] at h
      exact absurd (h.2.symm ▸ List.mem_append_right t (List.mem_cons_self '_' r1)) h2
    | cons c2 t2 =>
      simp only [List.cons_append, List.cons.injEq] at h
      exact ih t2 r1 r2 h1 h2 h.2

theorem last_underscore_seg (p1 m1 s1 p2 m2 s2 : List Char)
    (h1 : '_' ∉ s1) (h2 : '_' ∉ s2)
    (h : p1 ++ '_' :: (m1 ++ '_' :: s1) = p2 ++ '_' :: (m2 ++ '_' :: s2)) :
    s1 = s2 := by
  apply append_underscore_inj (p1 ++ '_' :: m1) (p2 ++ '_' :: m2) s1 s2 h1 h2
  simpa [List.append_assoc] using h

/-! ### Memory store (`backend/memory_store.py`, class `GameMemoryStore`) -/

/-- One stored tuple of a Chroma collection: document id, text, metadata. -/
structure MemRecord where
  rid : String
  page_content : String
  metadata : Dict
  deriving DecidableEq, Repr

/-- The four persistent collections owned by `GameMemoryStore`, each a list
of records in insertion order. -/
structure StoreState where
  sessions : List MemRecord
  npcs : List MemRecord
  locations : List MemRecord
  items : List MemRecord
  deriving DecidableEq, Repr

def emptyStore : StoreState := ⟨[], [], [], []⟩

/-- Document id assigned at write time:
`f"{kind}_{natural_id}_{len(collection.get()['ids'])}"`. -/
def mkDocId (kind naturalId : String) (count : Nat) : String :=
  kind ++ "_" ++ naturalId ++ "_" ++ natStr count

theorem mkDocId_count_inj (k1 a k2 b : String) (c1 c2 : Nat)
    (h : mkDocId k1 a c1 = mkDocId k2 b c2) : c1 = c2 := by
  have hd := congrArg String.data h
  simp only [mkDocId, String.data_append, List.append_assoc,
    List.singleton_append] at hd
  have hs : (natStr c1).data = (natStr c2).data :=
    last_underscore_seg k1.data a.data (natStr c1).data k2.data b.data
      (natStr c2).data (natStr_no_underscore c1) (natStr_no_underscore c2) hd
  exact natStr_inj c1 c2 (String.ext hs)

/-- `metadata.update({"session_id": session_id, "type": "session"})` on
`metadata or {}`. -/
def normSessionMeta (session_id : String) (md : Dict) : Dict :=
  dictInsert (dictInsert md "session_id" session_id) "type" "session"

/-- `metadata.update({"npc_id": ..., "npc_name": ..., "type": "npc"})`. -/
def normNpcMeta (npc_id npc_name : String) (md : Dict) : Dict :=
  dictInsert (dictInsert (dictInsert md "npc_id" npc_id) "npc_name" npc_name)
    "type" "npc"

/-- `metadata.update({"location_id": ..., "location_name": ..., "type": "location"})`. -/
def normLocationMeta (location_id location_name : String) (md : Dict) : Dict :=
  dictInsert (dictInsert (dictInsert md "location_id" location_id)
    "location_name" location_name) "type" "location"

/-- `metadata.update({"item_id": ..., "item_name": ..., "type": "item"})`. -/
def normItemMeta (item_id item_name : String) (md : Dict) : Dict :=
  dictInsert (dictInsert (dictInsert md "item_id" item_id)
    "item_name" item_name) "type" "item"

/-- `GameMemoryStore.save_session_memory`: assigns
`doc_id = f"session_{session_id}_{count}"`, normalizes the metadata and
appends the record via `add_texts`. -/
def save_session_memory (session_id content : String) (md : Dict)
    (st : StoreState) : StoreState :=
  { st with sessions := st.sessions ++
      [⟨mkDocId "session" session_id st.sessions.length, content,
        normSessionMeta session_id md⟩] }

/-- `GameMemoryStore.save_npc_memory`. -/
def save_npc_memory (npc_id npc_name content : String) (md : Dict)
    (st : StoreState) : StoreState :=
  { st with npcs := st.npcs ++
      [⟨mkDocId "npc" npc_id st.npcs.length, content,
        normNpcMeta npc_id npc_name md⟩] }

/-- `GameMemoryStore.save_location_memory`. -/
def save_location_memory (location_id location_name content : String)
    (md : Dict) (st : StoreState) : StoreState :=
  { st with locations := st.locations ++
      [⟨mkDocId "location" location_id st.locations.length, content,
        normLocationMeta location_id location_name md⟩] }

/-- `GameMemoryStore.save_item_memory`. -/
def save_item_memory (item_id item_name content : String) (md : Dict)
    (st : StoreState) : StoreState :=
  { st with items := st.items ++
      [⟨mkDocId "item" item_id st.items.length, content,
        normItemMeta item_id item_name md⟩] }

/-! ### Retrieval filters (`retrieve_*_memories` where-filter construction) -/

/-- `retrieve_session_memories`: `where_filter = {"session_id": session_id}
if session_id` else no filter. -/
def sessionWhere (session_id : Option String) : Option (String × String) :=
  if truthy session_id then some ("session_id", session_id.getD "") else none

/-- `retrieve_npc_memories`: `if npc_id: ... elif npc_name: ...` — Python
truthiness, so `None` and `""` both fall through. -/
def npcWhere (npc_id npc_name : Option String) : Option (String × String) :=
  if truthy npc_id then some ("npc_id", npc_id.getD "")
  else if truthy npc_name then some ("npc_name", npc_name.getD "")
  else none

/-- `retrieve_location_memories` filter construction. -/
def locationWhere (location_id location_name : Option String) :
    Option (String × String) :=
  if truthy location_id then some ("location_id", location_id.getD "")
  else if truthy location_name then some ("location_name", location_name.getD "")
  else none

/-- `retrieve_item_memories` filter construction. -/
def itemWhere (item_id item_name : Option String) : Option (String × String) :=
  if truthy item_id then some ("item_id", item_id.getD "")
  else if truthy item_name then some ("item_name", item_name.getD "")
  else none

/-- A record passes a metadata filter when every filter key matches. -/
def matchesWhere (f : Option (String × String)) (r : MemRecord) : Bool :=
  match f with
  | none => true
  | some kv => dictGet r.metadata kv.1 == some kv.2

/-- Modelled from the spec: the Collection Store similarity search
(`Chroma.as_retriever(...).get_relevant_documents`) is implemented by the
chromadb/langchain libraries, not by this repository.  Per spec §4.1 it
returns up to `k` filter-matching records ranked by descending similarity
to the query, ties broken by insertion order (earlier record first).
`score q t` is the similarity of query `q` to stored text `t`; the encoder
is deterministic, so identical texts receive identical scores. -/
def insertRanked (score : String → String → Int) (q : String) (r : MemRecord) :
    List MemRecord → List MemRecord
  | [] => [r]
  | h :: t =>
    if score q r.page_content ≥ score q h.page_content then r :: h :: t
    else h :: insertRanked score q r t

/-- Modelled from the spec: stable descending-similarity ranking of a
collection (see `insertRanked`). -/
def rankDesc (score : String → String → Int) (q : String) :
    List MemRecord → List MemRecord
  | [] => []
  | r :: rs => insertRanked score q r (rankDesc score q rs)

/-- Modelled from the spec: the Collection Store `query`: filter, rank by
descending similarity with insertion-order tie-break, return up to `k`. -/
def queryCollection (score : String → String → Int) (q : String) (k : Nat)
    (f : Option (String × String)) (recs : List MemRecord) : List MemRecord :=
  (rankDesc score q (recs.filter (matchesWhere f))).take k

/-- `GameMemoryStore.retrieve_session_memories` (similarity search is
spec-modelled, see `queryCollection`). -/
def retrieve_session_memories (score : String → String → Int) (query : String)
    (session_id : Option String) (k : Nat) (st : StoreState) : List MemRecord :=
  queryCollection score query k (sessionWhere session_id) st.sessions

/-- `GameMemoryStore.retrieve_npc_memories`. -/
def retrieve_npc_memories (score : String → String → Int) (query : String)
    (npc_id npc_name : Option String) (k : Nat) (st : StoreState) :
    List MemRecord :=
  queryCollection score query k (npcWhere npc_id npc_name) st.npcs

/-- `GameMemoryStore.retrieve_location_memories`. -/
def retrieve_location_memories (score : String → String → Int) (query : String)
    (location_id location_name : Option String) (k : Nat) (st : StoreState) :
    List MemRecord :=
  queryCollection score query k (locationWhere location_id location_name)
    st.locations

/-- `GameMemoryStore.retrieve_item_memories`. -/
def retrieve_item_memories (score : String → String → Int) (query : String)
    (item_id item_name : Option String) (k : Nat) (st : StoreState) :
    List MemRecord :=
  queryCollection score query k (itemWhere item_id item_name) st.items

/-- `GameMemoryStore.clear_collection`: deletes exactly the named
collection and re-initializes it empty; any other name raises
`ValueError(f"Unknown collection type: {collection_type}")`. -/
def clear_collection (collection_type : String) (st : StoreState) :
    Except String StoreState :=
  if collection_type = "sessions" then .ok { st with sessions := [] }
  else if collection_type = "npcs" then .ok { st with npcs := [] }
  else if collection_type = "locations" then .ok { st with locations := [] }
  else if collection_type = "items" then .ok { st with items := [] }
  else .error ("Unknown collection type: " ++ collection_type)

/-- `GameMemoryStore.get_collection_stats`: record count per collection. -/
def get_collection_stats (st : StoreState) : List (String × Nat) :=
  [("sessions", st.sessions.length), ("npcs", st.npcs.length),
   ("locations", st.locations.length), ("items", st.items.length)]

/-! ### Agent (`backend/game_agent.py`, class `GameMasterAgent`)

The store calls made by the agent go through the network (encoder,
persistence) and may raise; each call site is therefore embedded as a
function parameter returning `Except String _`, and the agent's
`try/except` blocks become matches on that result. -/

/-- `GameMasterAgent._retrieve_relevant_memories`: one retrieval per kind,
each wrapped in `try/except` that logs and continues, results accumulated
by `all_memories.extend(...)` in the fixed order sessions, NPCs,
locations, items.  Only the session retrieval receives `self.session_id`. -/
def retrieve_relevant_memories
    (retrieveSession : String → Option String → Nat → Except String (List MemRecord))
    (retrieveNpc : String → Nat → Except String (List MemRecord))
    (retrieveLocation : String → Nat → Except String (List MemRecord))
    (retrieveItem : String → Nat → Except String (List MemRecord))
    (session_id query : String) (k : Nat) : List MemRecord :=
  (match retrieveSession query (some session_id) k with
    | .ok l => l
    | .error _ => [])
  ++ (match retrieveNpc query k with
    | .ok l => l
    | .error _ => [])
  ++ (match retrieveLocation query k with
    | .ok l => l
    | .error _ => [])
  ++ (match retrieveItem query k with
    | .ok l => l
    | .error _ => [])

/-- One line of `GameMasterAgent._format_memory_context`:
`f"{i}. [{memory_type}]{metadata_str}: {content}"`. -/
def memoryLine (i : Nat) (m : MemRecord) : String :=
  let memory_type := (dictGet m.metadata "type").getD "unknown"
  let info :=
    (match dictGet m.metadata "npc_name" with
      | some v => ["NPC: " ++ v]
      | none => [])
    ++ (match dictGet m.metadata "location_name" with
      | some v => ["Location: " ++ v]
      | none => [])
    ++ (match dictGet m.metadata "item_name" with
      | some v => ["Item: " ++ v]
      | none => [])
  let metadata_str :=
    if info.isEmpty then "" else " (" ++ String.intercalate ", " info ++ ")"
  natStr i ++ ". [" ++ memory_type ++ "]" ++ metadata_str ++ ": "
    ++ m.page_content

/-- `GameMasterAgent._format_memory_context`: the sentinel on an empty
result list, else a header line followed by one numbered line per record,
joined with newlines. -/
def format_memory_context (memories : List MemRecord) : String :=
  if memories.isEmpty then
    "No relevant past memories found. Create a new scene from scratch."
  else
    String.intercalate "\n"
      ("Relevant memories from past sessions:" ::
        ((List.range memories.length).zip memories).map
          (fun p => memoryLine (p.1 + 1) p.2))

/-- `GameMasterAgent._save_scene_to_memory`: calls `save_session_memory`
with the combined prompt/scene content and extra metadata inside
`try/except`; on failure it prints the error and returns normally, so the
caller never observes an exception (`ts` stands for the `str(uuid.uuid4())`
timestamp placeholder). -/
def save_scene_to_memory
    (save : String → String → Dict → StoreState → Except String StoreState)
    (session_id prompt scene_text ts : String) (st : StoreState) :
    Except String (StoreState × List String) :=
  match save session_id
      ("Prompt: " ++ prompt ++ "\n\nGenerated Scene: " ++ scene_text)
      [("prompt", prompt), ("scene_type", "generated"), ("timestamp", ts)]
      st with
  | .ok st2 => .ok (st2, [])
  | .error e => .ok (st, ["Error saving scene to memory: " ++ e])

/-- The save block of `GameMasterAgent.respond`: saves the player
interaction inside `try/except`; on failure it prints the error and the
method still returns the response text. -/
def respond_save_interaction
    (save : String → String → Dict → StoreState → Except String StoreState)
    (session_id player_input response_text : String) (st : StoreState) :
    Except String (StoreState × List String) :=
  match save session_id
      ("Player: " ++ player_input ++ "\n\nGame Master: " ++ response_text)
      [("type", "player_interaction"), ("player_input", player_input)]
      st with
  | .ok st2 => .ok (st2, [])
  | .error e => .ok (st, ["Error saving interaction to memory: " ++ e])

/-! ### Dice roller (`backend/tools.py`, function `roll_dice`)

The regex `^(\d*)d(\d+)([+-]\d+)?$` applied to the stripped, lowercased
input is embedded as a direct parser over the character list; `\d` and the
whitespace class are modelled over ASCII.  `random.randint(1, num_sides)`
becomes the parameter `randint i lo hi`, indexed by the call number. -/

/-- ASCII whitespace stripped by Python `str.strip()`. -/
def isPySpace (c : Char) : Bool :=
  c = ' ' || c = '\t' || c = '\n' || c = '\x0d' || c = '\x0b' || c = '\x0c'

/-- Python `str.strip()` over ASCII whitespace. -/
def pyStrip (s : String) : String :=
  ⟨((s.data.dropWhile isPySpace).reverse.dropWhile isPySpace).reverse⟩

/-- Python `str.lower()` over ASCII. -/
def pyLower (s : String) : String :=
  ⟨s.data.map Char.toLower⟩

/-- ASCII decimal digit, the `\d` class of the dice regex. -/
def isDig (c : Char) : Bool := '0' ≤ c && c ≤ '9'

/-- Full-anchored match of `(\d*)d(\d+)([+-]\d+)?`: the digits before the
`d`, the digits after it, and the optional signed modifier digits. -/
def parseDice (cs : List Char) :
    Option (List Char × List Char × Option (Char × List Char)) :=
  let xa := cs.span isDig
  match xa.2 with
  | 'd' :: rest2 =>
    let ya := rest2.span isDig
    if ya.1.isEmpty then none
    else
      match ya.2 with
      | [] => some (xa.1, ya.1, none)
      | c :: rest4 =>
        if c = '+' || c = '-' then
          let za := rest4.span isDig
          if za.1.isEmpty || !za.2.isEmpty then none
          else some (xa.1, ya.1, some (c, za.1))
        else none
  | _ => none

/-- Python `int` on a non-empty ASCII digit string. -/
def digitsToNat (cs : List Char) : Nat :=
  cs.foldl (fun a c => 10 * a + (c.toNat - 48)) 0

/-- The dictionary returned by `roll_dice`. -/
structure DiceResult where
  rolls : List Nat
  total : Int
  modifier : Int
  error : Option String
  deriving DecidableEq, Repr

/-- An all-zero result carrying an error message, as every failure branch
of `roll_dice` builds it. -/
def diceError (msg : String) : DiceResult := ⟨[], 0, 0, some msg⟩

/-- `roll_dice(dice_notation)`: strip and lowercase the input, match the
dice regex, apply the bounds checks in source order, then roll
`num_dice` dice of `num_sides` sides and add the modifier. -/
def roll_dice (randint : Nat → Nat → Nat → Nat) (diceStr : String) :
    DiceResult :=
  let s := pyLower (pyStrip diceStr)
  match parseDice s.data with
  | none =>
    diceError ("Invalid dice notation: \x27" ++ s
      ++ "\x27. Expected format: XdY[+/-Z] (e.g., \x273d6\x27, \x271d20\x27, \x272d10+5\x27)")
  | some (xds, yds, modDigits) =>
    let num_dice := if xds.isEmpty then 1 else digitsToNat xds
    let num_sides := digitsToNat yds
    let modifier : Int :=
      match modDigits with
      | none => 0
      | some (c, zds) =>
        if c = '-' then -(digitsToNat zds : Int) else (digitsToNat zds : Int)
    if num_dice < 1 then
      diceError ("Number of dice must be at least 1, got " ++ natStr num_dice)
    else if num_dice > 100 then
      diceError ("Number of dice cannot exceed 100, got " ++ natStr num_dice)
    else if num_sides < 2 then
      diceError ("Number of sides must be at least 2, got " ++ natStr num_sides)
    else if num_sides > 1000 then
      diceError ("Number of sides cannot exceed 1000, got " ++ natStr num_sides)
    else
      let rolls := (List.range num_dice).map (fun i => randint i 1 num_sides)
      ⟨rolls, (rolls.sum : Int) + modifier, modifier, none⟩

/-- The success condition of the claim, computed from the same
normalization and parse: the stripped lowercased input matches
`XdY` with optional signed modifier, `1 ≤ X ≤ 100` (X defaulting to 1)
and `2 ≤ Y ≤ 1000`. -/
def diceNotationValid (diceStr : String) : Bool :=
  match parseDice (pyLower (pyStrip diceStr)).data with
  | none => false
  | some (xds, yds, _) =>
    let nd := if xds.isEmpty then 1 else digitsToNat xds
    let ns := digitsToNat yds
    1 ≤ nd && nd ≤ 100 && 2 ≤ ns && ns ≤ 1000

/-- The parsed components (dice count, sides, modifier) of a matching
input, before bounds checking. -/
def parsedDice (diceStr : String) : Option (Nat × Nat × Int) :=
  match parseDice (pyLower (pyStrip diceStr)).data with
  | none => none
  | some (xds, yds, modDigits) =>
    some (if xds.isEmpty then 1 else digitsToNat xds, digitsToNat yds,
      match modDigits with
      | none => 0
      | some (c, zds) =>
        if c = '-' then -(digitsToNat zds : Int) else (digitsToNat zds : Int))

/-! ## Claim theorems -/

/-- C9: clearing a valid collection empties exactly that collection and
leaves the record counts of the other three unchanged; any
`collection_type` outside the four valid names raises `ValueError`
immediately and no collection is modified (no new state is produced). -/
theorem C9_clear_collection_frame (st : StoreState) :
    (clear_collection "sessions" st = .ok { st with sessions := [] }
      ∧ clear_collection "npcs" st = .ok { st with npcs := [] }
      ∧ clear_collection "locations" st = .ok { st with locations := [] }
      ∧ clear_collection "items" st = .ok { st with items := [] })
    ∧ ∀ s : String,
        s ∉ (["sessions", "npcs", "locations", "items"] : List String) →
        clear_collection s st = .error ("Unknown collection type: " ++ s) := by
  constructor
  · refine ⟨rfl, ?_, ?_, ?_⟩ <;> simp [clear_collection]
  · intro s hs
    simp only [List.mem_cons, List.mem_singleton, not_or] at hs
    obtain ⟨h1, h2, h3, h4⟩ := hs
    simp [clear_collection, h1, h2, h3, h4]

theorem C9_clear_collection_frame_witness :
    clear_collection "foo" emptyStore
      = .error ("Unknown collection type: " ++ "foo")
    ∧ clear_collection "npcs" emptyStore = .ok emptyStore :=
  ⟨(C9_clear_collection_frame emptyStore).2 "foo" (by decide),
   (C9_clear_collection_frame emptyStore).1.2.1⟩

/-- C7: when all four entity kinds return zero records — in particular on
an empty store, where every collection query returns the empty list — the
formatted context block is the non-empty "no relevant memories" sentinel,
never the empty string and never an error. -/
theorem C7_empty_sentinel (session_id query : String) (k : Nat) :
    format_memory_context
        (retrieve_relevant_memories (fun _ _ _ => .ok []) (fun _ _ => .ok [])
          (fun _ _ => .ok []) (fun _ _ => .ok []) session_id query k)
      = "No relevant past memories found. Create a new scene from scratch."
    ∧ "No relevant past memories found. Create a new scene from scratch." ≠ ""
    ∧ ∀ (score : String → String → Int) (q : String) (k2 : Nat)
        (f : Option (String × String)), queryCollection score q k2 f [] = [] := by
  refine ⟨rfl, by decide, ?_⟩
  intro score q k2 f
  simp [queryCollection, rankDesc]

/-- C2: a failure retrieving any one entity kind does not abort the
aggregation: the failing kind contributes the empty list and the
aggregator returns the concatenated results of the other three kinds. -/
theorem C2_partial_failure
    (fS : String → Option String → Nat → Except String (List MemRecord))
    (fN fL fI : String → Nat → Except String (List MemRecord))
    (sid q e : String) (k : Nat) (lS lN lL lI : List MemRecord) :
    (fS q (some sid) k = .ok lS → fN q k = .ok lN → fL q k = .ok lL →
      retrieve_relevant_memories fS fN fL (fun _ _ => .error e) sid q k
        = lS ++ lN ++ lL)
    ∧ (fS q (some sid) k = .ok lS → fN q k = .ok lN → fI q k = .ok lI →
      retrieve_relevant_memories fS fN (fun _ _ => .error e) fI sid q k
        = lS ++ lN ++ lI)
    ∧ (fS q (some sid) k = .ok lS → fL q k = .ok lL → fI q k = .ok lI →
      retrieve_relevant_memories fS (fun _ _ => .error e) fL fI sid q k
        = lS ++ lL ++ lI)
    ∧ (fN q k = .ok lN → fL q k = .ok lL → fI q k = .ok lI →
      retrieve_relevant_memories (fun _ _ _ => .error e) fN fL fI sid q k
        = lN ++ lL ++ lI) := by
  refine ⟨?_, ?_, ?_, ?_⟩ <;>
    · intro h1 h2 h3
      simp [retrieve_relevant_memories, h1, h2, h3]

theorem C2_partial_failure_witness :
    retrieve_relevant_memories
        (fun _ _ _ => .ok [⟨"s0", "a", []⟩]) (fun _ _ => .ok [⟨"n0", "b", []⟩])
        (fun _ _ => .ok [⟨"l0", "c", []⟩]) (fun _ _ => .error "EncoderUnavailable")
        "sess" "query" 5
      = [⟨"s0", "a", []⟩] ++ [⟨"n0", "b", []⟩] ++ [⟨"l0", "c", []⟩] :=
  (C2_partial_failure (fun _ _ _ => .ok [⟨"s0", "a", []⟩])
    (fun _ _ => .ok [⟨"n0", "b", []⟩]) (fun _ _ => .ok [⟨"l0", "c", []⟩])
    (fun _ _ => .ok []) "sess" "query" "EncoderUnavailable" 5
    [⟨"s0", "a", []⟩] [⟨"n0", "b", []⟩] [⟨"l0", "c", []⟩] []).1 rfl rfl rfl

/-- C5: with all four retrievals succeeding, the aggregated sequence is
exactly sessions ++ NPCs ++ locations ++ items, so the kinds appear in the
fixed priority order and each kind keeps its internal rank order. -/
theorem C5_fixed_interleave_order
    (fS : String → Option String → Nat → Except String (List MemRecord))
    (fN fL fI : String → Nat → Except String (List MemRecord))
    (sid q : String) (k : Nat) (lS lN lL lI : List MemRecord)
    (hS : fS q (some sid) k = .ok lS) (hN : fN q k = .ok lN)
    (hL : fL q k = .ok lL) (hI : fI q k = .ok lI) :
    retrieve_relevant_memories fS fN fL fI sid q k = lS ++ lN ++ lL ++ lI := by
  simp [retrieve_relevant_memories, hS, hN, hL, hI]

theorem C5_fixed_interleave_order_witness :
    retrieve_relevant_memories
        (fun _ _ _ => .ok [⟨"s1", "w", []⟩, ⟨"s2", "x", []⟩])
        (fun _ _ => .ok [⟨"n1", "y", []⟩]) (fun _ _ => .ok [⟨"l1", "z", []⟩])
        (fun _ _ => .ok [⟨"i1", "v", []⟩]) "sess" "q" 5
      = [⟨"s1", "w", []⟩, ⟨"s2", "x", []⟩] ++ [⟨"n1", "y", []⟩]
        ++ [⟨"l1", "z", []⟩] ++ [⟨"i1", "v", []⟩] :=
  C5_fixed_interleave_order
    (fun _ _ _ => .ok [⟨"s1", "w", []⟩, ⟨"s2", "x", []⟩])
    (fun _ _ => .ok [⟨"n1", "y", []⟩]) (fun _ _ => .ok [⟨"l1", "z", []⟩])
    (fun _ _ => .ok [⟨"i1", "v", []⟩]) "sess" "q" 5 _ _ _ _ rfl rfl rfl rfl

/-- C6 counterexample: with a supplied-but-empty id and a supplied name,
the filter is built from the name, not from the id — Python truthiness
treats the empty string like an absent argument, so the claim "the filter
is built from the id alone whenever both arguments are supplied" fails at
`npc_id = ""`, `npc_name = "bob"`. -/
theorem C6_id_precedence_counterexample :
    npcWhere (some "") (some "bob") = some ("npc_name", "bob")
    ∧ some ("npc_name", "bob") ≠ some (("npc_id", "") : String × String) :=
  ⟨rfl, by decide⟩

/-- C6 (amended): a non-empty id takes precedence over the name; a `None`
or empty-string id is treated as absent and the filter falls back to a
non-empty name; with neither a non-empty id nor a non-empty name, no
filter is applied. -/
theorem C6_id_precedence_amended (i n : String) :
    (i ≠ "" →
      npcWhere (some i) (some n) = some ("npc_id", i)
      ∧ locationWhere (some i) (some n) = some ("location_id", i)
      ∧ itemWhere (some i) (some n) = some ("item_id", i)
      ∧ npcWhere (some i) none = some ("npc_id", i))
    ∧ (n ≠ "" →
      npcWhere none (some n) = some ("npc_name", n)
      ∧ npcWhere (some "") (some n) = some ("npc_name", n)
      ∧ locationWhere none (some n) = some ("location_name", n)
      ∧ itemWhere none (some n) = some ("item_name", n))
    ∧ npcWhere none none = none
    ∧ npcWhere (some "") none = none
    ∧ npcWhere (some i) (some "") = npcWhere (some i) none
    ∧ locationWhere none none = none
    ∧ itemWhere none none = none := by
  refine ⟨?_, ?_, rfl, rfl, rfl, rfl, rfl⟩
  · intro h
    refine ⟨?_, ?_, ?_, ?_⟩ <;>
      simp [npcWhere, locationWhere, itemWhere, truthy, h]
  · intro h
    refine ⟨?_, ?_, ?_, ?_⟩ <;>
      simp [npcWhere, locationWhere, itemWhere, truthy, h]

theorem C6_id_precedence_amended_witness :
    npcWhere (some "npc_7") (some "Grak") = some ("npc_id", "npc_7")
    ∧ npcWhere none (some "Grak") = some ("npc_name", "Grak") :=
  ⟨((C6_id_precedence_amended "npc_7" "Grak").1 (by decide)).1,
   ((C6_id_precedence_amended "npc_7" "Grak").2.1 (by decide)).1⟩

/-- C4: normalization always stores the collection's kind under `type` and
the natural-key fields from the save's arguments — `dict.update` runs the
reserved keys last, so caller-supplied conflicting values are overwritten —
and hence every save preserves the invariant that each record's `type`
metadata matches its owning collection. -/
theorem C4_reserved_metadata_wins (a b c : String) (md : Dict)
    (st : StoreState) :
    (dictGet (normSessionMeta a md) "type" = some "session"
      ∧ dictGet (normSessionMeta a md) "session_id" = some a)
    ∧ (dictGet (normNpcMeta a b md) "type" = some "npc"
      ∧ dictGet (normNpcMeta a b md) "npc_id" = some a
      ∧ dictGet (normNpcMeta a b md) "npc_name" = some b)
    ∧ (dictGet (normLocationMeta a b md) "type" = some "location"
      ∧ dictGet (normLocationMeta a b md) "location_id" = some a
      ∧ dictGet (normLocationMeta a b md) "location_name" = some b)
    ∧ (dictGet (normItemMeta a b md) "type" = some "item"
      ∧ dictGet (normItemMeta a b md) "item_id" = some a
      ∧ dictGet (normItemMeta a b md) "item_name" = some b)
    ∧ ((∀ r ∈ st.sessions, dictGet r.metadata "type" = some "session") →
      ∀ r ∈ (save_session_memory a c md st).sessions,
        dictGet r.metadata "type" = some "session")
    ∧ ((∀ r ∈ st.npcs, dictGet r.metadata "type" = some "npc") →
      ∀ r ∈ (save_npc_memory a b c md st).npcs,
        dictGet r.metadata "type" = some "npc")
    ∧ ((∀ r ∈ st.locations, dictGet r.metadata "type" = some "location") →
      ∀ r ∈ (save_location_memory a b c md st).locations,
        dictGet r.metadata "type" = some "location")
    ∧ ((∀ r ∈ st.items, dictGet r.metadata "type" = some "item") →
      ∀ r ∈ (save_item_memory a b c md st).items,
        dictGet r.metadata "type" = some "item") := by
  have hSession : ∀ md2 : Dict,
      dictGet (normSessionMeta a md2) "type" = some "session"
      ∧ dictGet (normSessionMeta a md2) "session_id" = some a := by
    intro md2
    unfold normSessionMeta
    refine ⟨dictGet_dictInsert_same _ _ _, ?_⟩
    rw [dictGet_dictInsert_other _ _ _ _ (by decide)]
    exact dictGet_dictInsert_same _ _ _
  have hNpc : ∀ md2 : Dict,
      dictGet (normNpcMeta a b md2) "type" = some "npc"
      ∧ dictGet (normNpcMeta a b md2) "npc_id" = some a
      ∧ dictGet (normNpcMeta a b md2) "npc_name" = some b := by
    intro md2
    unfold normNpcMeta
    refine ⟨dictGet_dictInsert_same _ _ _, ?_, ?_⟩
    · rw [dictGet_dictInsert_other _ _ _ _ (by decide),
        dictGet_dictInsert_other _ _ _ _ (by decide)]
      exact dictGet_dictInsert_same _ _ _
    · rw [dictGet_dictInsert_other _ _ _ _ (by decide)]
      exact dictGet_dictInsert_same _ _ _
  have hLocation : ∀ md2 : Dict,
      dictGet (normLocationMeta a b md2) "type" = some "location"
      ∧ dictGet (normLocationMeta a b md2) "location_id" = some a
      ∧ dictGet (normLocationMeta a b md2) "location_name" = some b := by
    intro md2
    unfold normLocationMeta
    refine ⟨dictGet_dictInsert_same _ _ _, ?_, ?_⟩
    · rw [dictGet_dictInsert_other _ _ _ _ (by decide),
        dictGet_dictInsert_other _ _ _ _ (by decide)]
      exact dictGet_dictInsert_same _ _ _
    · rw [dictGet_dictInsert_other _ _ _ _ (by decide)]
      exact dictGet_dictInsert_same _ _ _
  have hItem : ∀ md2 : Dict,
      dictGet (normItemMeta a b md2) "type" = some "item"
      ∧ dictGet (normItemMeta a b md2) "item_id" = some a
      ∧ dictGet (normItemMeta a b md2) "item_name" = some b := by
    intro md2
    unfold normItemMeta
    refine ⟨dictGet_dictInsert_same _ _ _, ?_, ?_⟩
    · rw [dictGet_dictInsert_other _ _ _ _ (by decide),
        dictGet_dictInsert_other _ _ _ _ (by decide)]
      exact dictGet_dictInsert_same _ _ _
    · rw [dictGet_dictInsert_other _ _ _ _ (by decide)]
      exact dictGet_dictInsert_same _ _ _
  refine ⟨hSession md, hNpc md, hLocation md, hItem md, ?_, ?_, ?_, ?_⟩
  · intro hinv r hr
    simp only [save_session_memory, List.mem_append, List.mem_singleton] at hr
    rcases hr with hr | hr
    · exact hinv r hr
    · subst hr; exact (hSession md).1
  · intro hinv r hr
    simp only [save_npc_memory, List.mem_append, List.mem_singleton] at hr
    rcases hr with hr | hr
    · exact hinv r hr
    · subst hr; exact (hNpc md).1
  · intro hinv r hr
    simp only [save_location_memory, List.mem_append, List.mem_singleton] at hr
    rcases hr with hr | hr
    · exact hinv r hr
    · subst hr; exact (hLocation md).1
  · intro hinv r hr
    simp only [save_item_memory, List.mem_append, List.mem_singleton] at hr
    rcases hr with hr | hr
    · exact hinv r hr
    · subst hr; exact (hItem md).1

theorem C4_reserved_metadata_wins_witness :
    dictGet (normSessionMeta "s1"
        [("type", "player_interaction"), ("player_input", "hi")]) "type"
      = some "session"
    ∧ ∀ r ∈ (save_npc_memory "npc_7" "Grak" "c" [("type", "evil")]
        emptyStore).npcs, dictGet r.metadata "type" = some "npc" :=
  ⟨(C4_reserved_metadata_wins "s1" "b" "c"
      [("type", "player_interaction"), ("player_input", "hi")] emptyStore).1.1,
   (C4_reserved_metadata_wins "npc_7" "Grak" "c" [("type", "evil")]
      emptyStore).2.2.2.2.2.1 (by simp [emptyStore])⟩

/-- `insertRanked` splits the list at the first element whose score is not
strictly greater than the inserted record's. -/
theorem insertRanked_split (score : String → String → Int) (q : String)
    (r : MemRecord) (l : List MemRecord) :
    ∃ l1 l2, l = l1 ++ l2 ∧ insertRanked score q r l = l1 ++ r :: l2
      ∧ ∀ h ∈ l1, score q r.page_content < score q h.page_content := by
  induction l with
  | nil => exact ⟨[], [], rfl, rfl, by simp⟩
  | cons h t ih =>
    by_cases hc : score q r.page_content ≥ score q h.page_content
    · exact ⟨[], h :: t, rfl, by simp [insertRanked, hc], by simp⟩
    · obtain ⟨l1, l2, hsplit, hins, hgt⟩ := ih
      refine ⟨h :: l1, l2, by simp [hsplit], ?_, ?_⟩
      · simp [insertRanked, hc, hins]
      · intro x hx
        rcases List.mem_cons.mp hx with hx | hx
        · subst hx; omega
        · exact hgt x hx

/-- Inserting a record whose score equals `v` puts it in front of every
other score-`v` record already present (they were never in the
strictly-greater prefix): stability of one insertion. -/
theorem filter_insertRanked_eq (score : String → String → Int) (q : String)
    (v : Int) (r : MemRecord) (l : List MemRecord)
    (hv : score q r.page_content = v) :
    (insertRanked score q r l).filter
        (fun x => decide (score q x.page_content = v))
      = r :: l.filter (fun x => decide (score q x.page_content = v)) := by
  obtain ⟨l1, l2, hsplit, hins, hgt⟩ := insertRanked_split score q r l
  have h1 : l1.filter (fun x => decide (score q x.page_content = v)) = [] := by
    rw [List.filter_eq_nil_iff]
    intro x hx
    have := hgt x hx
    simp only [decide_eq_true_eq]
    omega
  rw [hins, List.filter_append, h1, hsplit, List.filter_append, h1]
  simp [hv]

/-- Inserting a record whose score differs from `v` leaves the score-`v`
subsequence unchanged. -/
theorem filter_insertRanked_ne (score : String → String → Int) (q : String)
    (v : Int) (r : MemRecord) (l : List MemRecord)
    (hv : score q r.page_content ≠ v) :
    (insertRanked score q r l).filter
        (fun x => decide (score q x.page_content = v))
      = l.filter (fun x => decide (score q x.page_content = v)) := by
  obtain ⟨l1, l2, hsplit, hins, _⟩ := insertRanked_split score q r l
  rw [hins, hsplit, List.filter_append, List.filter_append]
  simp [hv]

/-- Stability of the spec-modelled ranking: restricted to any one score
value, the ranked list is the original insertion-order subsequence. -/
theorem rankDesc_filter (score : String → String → Int) (q : String)
    (v : Int) (l : List MemRecord) :
    (rankDesc score q l).filter (fun x => decide (score q x.page_content = v))
      = l.filter (fun x => decide (score q x.page_content = v)) := by
  induction l with
  | nil => rfl
  | cons r t ih =>
    rw [rankDesc]
    by_cases hv : score q r.page_content = v
    · rw [filter_insertRanked_eq score q v r _ hv, ih]
      simp [hv]
    · rw [filter_insertRanked_ne score q v r _ hv, ih]
      simp [hv]

/-- A decomposition of `filter p R` transfers to a decomposition of `R`. -/
theorem filter_eq_append_cons_split (p : MemRecord → Bool)
    (R : List MemRecord) : ∀ (X Y : List MemRecord) (x : MemRecord),
    R.filter p = X ++ x :: Y →
    ∃ R1 R2, R = R1 ++ x :: R2 ∧ R1.filter p = X ∧ R2.filter p = Y := by
  induction R with
  | nil =>
    intro X Y x h
    simp only [List.filter_nil] at h
    exact absurd h (by simp)
  | cons r R' ih =>
    intro X Y x h
    by_cases hp : p r
    · rw [List.filter_cons_of_pos hp] at h
      cases X with
      | nil =>
        simp only [List.nil_append, List.cons.injEq] at h
        exact ⟨[], R', by simp [h.1], by simp, h.2⟩
      | cons x0 X' =>
        simp only [List.cons_append, List.cons.injEq] at h
        obtain ⟨R1, R2, hR, hX, hY⟩ := ih X' Y x h.2
        exact ⟨r :: R1, R2, by simp [hR], by
          rw [List.filter_cons_of_pos hp, hX, h.1], hY⟩
    · rw [List.filter_cons_of_neg hp] at h
      obtain ⟨R1, R2, hR, hX, hY⟩ := ih X Y x h
      exact ⟨r :: R1, R2, by simp [hR],
        by rw [List.filter_cons_of_neg hp, hX], hY⟩

/-- C8: in any collection, for two records added with identical text (and
hence identical similarity score to any query), whenever the later-added
record appears in the `k = 2` query result, the result is exactly the two
records in insertion order, earlier first; in particular two identical
texts saved into an empty collection are returned as `[first, second]`. -/
theorem C8_tie_break_insertion_order (score : String → String → Int)
    (q t i1 n1 i2 n2 : String) (md1 md2 : Dict)
    (pre mid post : List MemRecord) (a b : MemRecord)
    (htext : b.page_content = a.page_content) (hab : b ≠ a)
    (hbpre : b ∉ pre) (hbmid : b ∉ mid) :
    (b ∈ queryCollection score q 2 none (pre ++ a :: (mid ++ b :: post)) →
      queryCollection score q 2 none (pre ++ a :: (mid ++ b :: post)) = [a, b])
    ∧ retrieve_npc_memories score q none none 2
        (save_npc_memory i2 n2 t md2 (save_npc_memory i1 n1 t md1 emptyStore))
      = [⟨mkDocId "npc" i1 0, t, normNpcMeta i1 n1 md1⟩,
         ⟨mkDocId "npc" i2 1, t, normNpcMeta i2 n2 md2⟩] := by
  constructor
  · intro hb
    have hfilterTrue :
        (pre ++ a :: (mid ++ b :: post)).filter (matchesWhere none)
          = pre ++ a :: (mid ++ b :: post) := by
      rw [List.filter_eq_self]
      intro x _
      rfl
    unfold queryCollection at hb ⊢
    rw [hfilterTrue] at hb ⊢
    set v := score q a.page_content with hv
    set p : MemRecord → Bool :=
      fun x => decide (score q x.page_content = v) with hpdef
    have hpa : p a = true := by simp [hpdef]
    have hpb : p b = true := by simp [hpdef, htext]
    have hstable := rankDesc_filter score q v (pre ++ a :: (mid ++ b :: post))
    rw [List.filter_append, List.filter_cons_of_pos hpa, List.filter_append,
      List.filter_cons_of_pos hpb] at hstable
    obtain ⟨R1, R2, hR, hfR1, hfR2⟩ :=
      filter_eq_append_cons_split p _ _ _ _ hstable
    obtain ⟨R21, R22, hR2, hfR21, _⟩ :=
      filter_eq_append_cons_split p _ _ _ _ hfR2
    have hbR1 : b ∉ R1 := by
      intro hmem
      exact hbpre (List.mem_of_mem_filter
        (hfR1 ▸ List.mem_filter_of_mem hmem hpb))
    have hbR21 : b ∉ R21 := by
      intro hmem
      exact hbmid (List.mem_of_mem_filter
        (hfR21 ▸ List.mem_filter_of_mem hmem hpb))
    rw [hR2] at hR
    rw [hR] at hb ⊢
    rcases R1 with _ | ⟨c, R1'⟩
    · rcases R21 with _ | ⟨c2, R21'⟩
      · simp
      · simp only [List.nil_append, List.cons_append, List.take_succ_cons,
          List.take_zero, List.mem_cons, List.not_mem_nil, or_false] at hb
        rcases hb with hb | hb
        · exact absurd hb hab
        · exact absurd (by simp [hb]) hbR21
    · rcases R1' with _ | ⟨c2, R1''⟩
      · simp only [List.cons_append, List.nil_append, List.take_succ_cons,
          List.take_zero, List.mem_cons, List.not_mem_nil, or_false] at hb
        rcases hb with hb | hb
        · exact absurd (by simp [hb]) hbR1
        · exact absurd hb hab
      · simp only [List.cons_append, List.take_succ_cons, List.take_zero,
          List.mem_cons, List.not_mem_nil, or_false] at hb
        rcases hb with hb | hb
        · exact absurd (by simp [hb]) hbR1
        · exact absurd (by simp [hb]) hbR1
  · simp [retrieve_npc_memories, save_npc_memory, emptyStore, queryCollection,
      npcWhere, truthy, matchesWhere, rankDesc, insertRanked, natStr,
      List.filter]

theorem C8_tie_break_insertion_order_witness :
    queryCollection (fun _ _ => (0 : Int)) "q" 2 none
        ([] ++ (⟨"x1", "same", []⟩ : MemRecord) ::
          ([] ++ (⟨"x2", "same", []⟩ : MemRecord) :: []))
      = [⟨"x1", "same", []⟩, ⟨"x2", "same", []⟩] :=
  (C8_tie_break_insertion_order (fun _ _ => 0) "q" "t" "i1" "n1" "i2" "n2"
      [] [] [] [] [] ⟨"x1", "same", []⟩ ⟨"x2", "same", []⟩ rfl (by decide)
      (by decide) (by decide)).1 (by decide)

/-! ### Sequential save runs (for C3) -/

/-- A sequence of `save_session_memory` calls applied in order:
`(session_id, content, metadata)` per call. -/
def runSessionSaves (xs : List (String × String × Dict)) (st : StoreState) :
    StoreState :=
  xs.foldl (fun s x => save_session_memory x.1 x.2.1 x.2.2 s) st

/-- A sequence of `save_npc_memory` calls:
`(npc_id, npc_name, content, metadata)` per call. -/
def runNpcSaves (xs : List (String × String × String × Dict))
    (st : StoreState) : StoreState :=
  xs.foldl (fun s x => save_npc_memory x.1 x.2.1 x.2.2.1 x.2.2.2 s) st

/-- A sequence of `save_location_memory` calls. -/
def runLocationSaves (xs : List (String × String × String × Dict))
    (st : StoreState) : StoreState :=
  xs.foldl (fun s x => save_location_memory x.1 x.2.1 x.2.2.1 x.2.2.2 s) st

/-- A sequence of `save_item_memory` calls. -/
def runItemSaves (xs : List (String × String × String × Dict))
    (st : StoreState) : StoreState :=
  xs.foldl (fun s x => save_item_memory x.1 x.2.1 x.2.2.1 x.2.2.2 s) st

/-- The ids a run of saves assigns: kind prefix, the natural id of each
save, and the record count at the time of that save. -/
def newIds (kind : String) (nats : List String) (n : Nat) : List String :=
  match nats with
  | [] => []
  | a :: rest => mkDocId kind a n :: newIds kind rest (n + 1)

theorem mem_newIds (kind : String) (nats : List String) (n : Nat)
    (y : String) (hy : y ∈ newIds kind nats n) :
    ∃ a c, n ≤ c ∧ y = mkDocId kind a c := by
  induction nats generalizing n with
  | nil => simp [newIds] at hy
  | cons a rest ih =>
    simp only [newIds, List.mem_cons] at hy
    rcases hy with hy | hy
    · exact ⟨a, n, Nat.le_refl n, hy⟩
    · obtain ⟨b, c, hc, hb⟩ := ih (n + 1) hy
      exact ⟨b, c, by omega, hb⟩

theorem newIds_pairwise_ne (kind : String) (nats : List String) (n : Nat) :
    (newIds kind nats n).Pairwise (· ≠ ·) := by
  induction nats generalizing n with
  | nil => simp [newIds]
  | cons a rest ih =>
    rw [newIds]
    refine List.Pairwise.cons ?_ (ih (n + 1))
    intro y hy hEq
    obtain ⟨b, c, hc, hb⟩ := mem_newIds kind rest (n + 1) y hy
    have : n = c := mkDocId_count_inj kind a kind b n c (hb ▸ hEq)
    omega

theorem runSessionSaves_ids (xs : List (String × String × Dict))
    (st : StoreState) :
    (runSessionSaves xs st).sessions.map MemRecord.rid
      = st.sessions.map MemRecord.rid
        ++ newIds "session" (xs.map (·.1)) st.sessions.length := by
  induction xs generalizing st with
  | nil => simp [runSessionSaves, newIds]
  | cons x rest ih =>
    rw [runSessionSaves, List.foldl_cons]
    have := ih (save_session_memory x.1 x.2.1 x.2.2 st)
    rw [runSessionSaves] at this
    rw [this]
    simp [save_session_memory, newIds]

theorem runNpcSaves_ids (xs : List (String × String × String × Dict))
    (st : StoreState) :
    (runNpcSaves xs st).npcs.map MemRecord.rid
      = st.npcs.map MemRecord.rid
        ++ newIds "npc" (xs.map (·.1)) st.npcs.length := by
  induction xs generalizing st with
  | nil => simp [runNpcSaves, newIds]
  | cons x rest ih =>
    rw [runNpcSaves, List.foldl_cons]
    have := ih (save_npc_memory x.1 x.2.1 x.2.2.1 x.2.2.2 st)
    rw [runNpcSaves] at this
    rw [this]
    simp [save_npc_memory, newIds]

theorem runLocationSaves_ids (xs : List (String × String × String × Dict))
    (st : StoreState) :
    (runLocationSaves xs st).locations.map MemRecord.rid
      = st.locations.map MemRecord.rid
        ++ newIds "location" (xs.map (·.1)) st.locations.length := by
  induction xs generalizing st with
  | nil => simp [runLocationSaves, newIds]
  | cons x rest ih =>
    rw [runLocationSaves, List.foldl_cons]
    have := ih (save_location_memory x.1 x.2.1 x.2.2.1 x.2.2.2 st)
    rw [runLocationSaves] at this
    rw [this]
    simp [save_location_memory, newIds]

theorem runItemSaves_ids (xs : List (String × String × String × Dict))
    (st : StoreState) :
    (runItemSaves xs st).items.map MemRecord.rid
      = st.items.map MemRecord.rid
        ++ newIds "item" (xs.map (·.1)) st.items.length := by
  induction xs generalizing st with
  | nil => simp [runItemSaves, newIds]
  | cons x rest ih =>
    rw [runItemSaves, List.foldl_cons]
    have := ih (save_item_memory x.1 x.2.1 x.2.2.1 x.2.2.2 st)
    rw [runItemSaves] at this
    rw [this]
    simp [save_item_memory, newIds]

/-- C3: every save assigns the id combining the kind prefix, the
caller-supplied natural id and the current record count of the collection
(`f"{kind}_{natural_id}_{count}"`), and for any sequential run of saves
into one collection the newly assigned ids are pairwise distinct — the
decimal count is the segment after the last underscore, so saves at
different counts can never collide, whatever the natural ids are. -/
theorem C3_doc_id_generation :
    (∀ (sid content : String) (md : Dict) (st : StoreState),
      (save_session_memory sid content md st).sessions
        = st.sessions ++ [⟨mkDocId "session" sid st.sessions.length, content,
            normSessionMeta sid md⟩])
    ∧ (∀ (i n content : String) (md : Dict) (st : StoreState),
      (save_npc_memory i n content md st).npcs
        = st.npcs ++ [⟨mkDocId "npc" i st.npcs.length, content,
            normNpcMeta i n md⟩])
    ∧ (∀ (i n content : String) (md : Dict) (st : StoreState),
      (save_location_memory i n content md st).locations
        = st.locations ++ [⟨mkDocId "location" i st.locations.length, content,
            normLocationMeta i n md⟩])
    ∧ (∀ (i n content : String) (md : Dict) (st : StoreState),
      (save_item_memory i n content md st).items
        = st.items ++ [⟨mkDocId "item" i st.items.length, content,
            normItemMeta i n md⟩])
    ∧ (∀ (xs : List (String × String × Dict)) (st : StoreState),
      (((runSessionSaves xs st).sessions.map MemRecord.rid).drop
          st.sessions.length).Pairwise (· ≠ ·))
    ∧ (∀ (xs : List (String × String × String × Dict)) (st : StoreState),
      (((runNpcSaves xs st).npcs.map MemRecord.rid).drop
          st.npcs.length).Pairwise (· ≠ ·))
    ∧ (∀ (xs : List (String × String × String × Dict)) (st : StoreState),
      (((runLocationSaves xs st).locations.map MemRecord.rid).drop
          st.locations.length).Pairwise (· ≠ ·))
    ∧ (∀ (xs : List (String × String × String × Dict)) (st : StoreState),
      (((runItemSaves xs st).items.map MemRecord.rid).drop
          st.items.length).Pairwise (· ≠ ·)) := by
  refine ⟨fun _ _ _ _ => rfl, fun _ _ _ _ _ => rfl, fun _ _ _ _ _ => rfl,
    fun _ _ _ _ _ => rfl, ?_, ?_, ?_, ?_⟩
  · intro xs st
    rw [runSessionSaves_ids,
      show st.sessions.length = (st.sessions.map MemRecord.rid).length by
        simp,
      List.drop_left]
    exact newIds_pairwise_ne _ _ _
  · intro xs st
    rw [runNpcSaves_ids,
      show st.npcs.length = (st.npcs.map MemRecord.rid).length by simp,
      List.drop_left]
    exact newIds_pairwise_ne _ _ _
  · intro xs st
    rw [runLocationSaves_ids,
      show st.locations.length = (st.locations.map MemRecord.rid).length by
        simp,
      List.drop_left]
    exact newIds_pairwise_ne _ _ _
  · intro xs st
    rw [runItemSaves_ids,
      show st.items.length = (st.items.map MemRecord.rid).length by simp,
      List.drop_left]
    exact newIds_pairwise_ne _ _ _

/-- C1 counterexample: when the underlying `save_session_memory` call
fails, both agent save sites (`_save_scene_to_memory` and the save block
of `respond`) catch the exception, print it, and complete normally — the
result is `.ok`, so the error is swallowed rather than surfaced to the
caller of the agent operation. -/
theorem C1_save_surfaced_counterexample :
    save_scene_to_memory (fun _ _ _ _ => .error "PersistenceFailure")
        "s1" "a prompt" "a scene" "t0" emptyStore
      = .ok (emptyStore, ["Error saving scene to memory: PersistenceFailure"])
    ∧ respond_save_interaction (fun _ _ _ _ => .error "PersistenceFailure")
        "s1" "hello" "a reply" emptyStore
      = .ok (emptyStore,
          ["Error saving interaction to memory: PersistenceFailure"]) :=
  ⟨rfl, rfl⟩

/-- C1 (amended): when the underlying save of a generated scene or a
player interaction fails, the agent catches the error inside its
`try/except`, logs it, and the agent operation completes normally with the
store unchanged; the error is not propagated to the caller.  When the save
succeeds nothing is logged. -/
theorem C1_save_error_logged_amended
    (save : String → String → Dict → StoreState → Except String StoreState)
    (sid prompt scene ts player response e : String) (st st2 : StoreState) :
    (save sid ("Prompt: " ++ prompt ++ "\n\nGenerated Scene: " ++ scene)
        [("prompt", prompt), ("scene_type", "generated"), ("timestamp", ts)]
        st = .error e →
      save_scene_to_memory save sid prompt scene ts st
        = .ok (st, ["Error saving scene to memory: " ++ e]))
    ∧ (save sid ("Prompt: " ++ prompt ++ "\n\nGenerated Scene: " ++ scene)
        [("prompt", prompt), ("scene_type", "generated"), ("timestamp", ts)]
        st = .ok st2 →
      save_scene_to_memory save sid prompt scene ts st = .ok (st2, []))
    ∧ (save sid ("Player: " ++ player ++ "\n\nGame Master: " ++ response)
        [("type", "player_interaction"), ("player_input", player)]
        st = .error e →
      respond_save_interaction save sid player response st
        = .ok (st, ["Error saving interaction to memory: " ++ e]))
    ∧ (save sid ("Player: " ++ player ++ "\n\nGame Master: " ++ response)
        [("type", "player_interaction"), ("player_input", player)]
        st = .ok st2 →
      respond_save_interaction save sid player response st
        = .ok (st2, [])) := by
  refine ⟨?_, ?_, ?_, ?_⟩ <;>
    · intro h
      simp [save_scene_to_memory, respond_save_interaction, h]

theorem C1_save_error_logged_amended_witness :
    save_scene_to_memory (fun _ _ _ _ => .error "EncoderUnavailable")
        "s9" "p" "x" "t1" emptyStore
      = .ok (emptyStore, ["Error saving scene to memory: "
          ++ "EncoderUnavailable"]) :=
  (C1_save_error_logged_amended (fun _ _ _ _ => .error "EncoderUnavailable")
    "s9" "p" "x" "t1" "u" "v" "EncoderUnavailable" emptyStore emptyStore).1
    rfl

/-- C10: `roll_dice` succeeds (error field `None`) exactly when the
stripped, lowercased input matches `XdY` with optional signed modifier,
with the dice count between 1 and 100 (1 when omitted) and the sides
between 2 and 1000; on success the rolls list has length X with every
entry between 1 and Y (given the `random.randint` contract) and the total
is the sum of the rolls plus the modifier (0 when omitted); on failure the
rolls list is empty and the total is 0. -/
theorem C10_roll_dice (randint : Nat → Nat → Nat → Nat) (diceStr : String)
    (hrand : ∀ i lo hi, lo ≤ hi → lo ≤ randint i lo hi ∧ randint i lo hi ≤ hi) :
    ((roll_dice randint diceStr).error = none
      ↔ diceNotationValid diceStr = true)
    ∧ ((roll_dice randint diceStr).error = none →
      ∃ nd ns m, parsedDice diceStr = some (nd, ns, m)
        ∧ 1 ≤ nd ∧ nd ≤ 100 ∧ 2 ≤ ns ∧ ns ≤ 1000
        ∧ (roll_dice randint diceStr).rolls.length = nd
        ∧ (∀ r ∈ (roll_dice randint diceStr).rolls, 1 ≤ r ∧ r ≤ ns)
        ∧ (roll_dice randint diceStr).modifier = m
        ∧ (roll_dice randint diceStr).total
            = ((roll_dice randint diceStr).rolls.sum : Int) + m)
    ∧ ((roll_dice randint diceStr).error ≠ none →
      (roll_dice randint diceStr).rolls = []
      ∧ (roll_dice randint diceStr).total = 0) := by
  cases hp : parseDice (pyLower (pyStrip diceStr)).data with
  | none =>
    simp [roll_dice, diceNotationValid, parsedDice, hp, diceError]
  | some v =>
    obtain ⟨xds, yds, modDigits⟩ := v
    simp only [roll_dice, diceNotationValid, parsedDice, hp]
    generalize (if xds.isEmpty = true then (1 : Nat) else digitsToNat xds) = nd
    generalize digitsToNat yds = ns
    generalize (match modDigits with
      | none => (0 : Int)
      | some (c, zds) =>
        if c = '-' then -(digitsToNat zds : Int) else (digitsToNat zds : Int)) = m
    split_ifs with h1 h2 h3 h4
    · simp [diceError]; omega
    · simp [diceError]; omega
    · simp [diceError]; omega
    · simp [diceError]; omega
    · refine ⟨by simp; omega, ?_, by simp⟩
      intro _
      refine ⟨nd, ns, m, rfl, by omega, by omega, by omega, by omega,
        by simp, ?_, rfl, rfl⟩
      intro r hr
      simp only [List.mem_map, List.mem_range] at hr
      obtain ⟨i, hi, hr⟩ := hr
      have := hrand i 1 ns (by omega)
      omega

theorem C10_roll_dice_witness :
    diceNotationValid "2d6+3" = true
    ∧ ((roll_dice (fun _ lo _ => lo) "2d6+3").error = none
      ↔ diceNotationValid "2d6+3" = true)
    ∧ ((roll_dice (fun _ lo _ => lo) "2d6+3").error ≠ none →
      (roll_dice (fun _ lo _ => lo) "2d6+3").rolls = []
      ∧ (roll_dice (fun _ lo _ => lo) "2d6+3").total = 0) :=
  ⟨by decide,
   (C10_roll_dice (fun _ lo _ => lo) "2d6+3"
      (fun _ lo _ h => ⟨Nat.le_refl lo, h⟩)).1,
   (C10_roll_dice (fun _ lo _ => lo) "2d6+3"
      (fun _ lo _ h => ⟨Nat.le_refl lo, h⟩)).2.2⟩

end GameMaster
